import Mathlib

/-
Verification development for the CINN scheduling layer:
the GPU auto-bind generation rule (auto_bind.cc) and the schedule
trace/replay descriptor (schedule_desc.h and its tests).

The loop-level IR fragment, the spatial-loop analysis and the binding
algorithm are shallowly embedded from
src/cinn/auto_schedule/search_space/auto_gen_rule/auto_bind.cc.
The ScheduleDesc replay/serialization component is declared in
cinn/ir/schedule_desc.h and exercised by its tests, but its
implementation file is not part of the inspected sources; those parts
are modelled from the specification and are marked as such.
-/

namespace CinnAutoBind

/-! ## Loop IR data model (cinn::ir fragment used by auto_bind.cc) -/

/-- The for-loop kinds of cinn::ir. Serial is the plain sequential loop;
GPUBlock / GPUThread record a binding to a hardware dimension. -/
inductive ForType where
  | Serial
  | Parallel
  | Vectorized
  | Unrolled
  | GPUBlock
  | GPUThread
deriving DecidableEq

/-- An iteration variable of a ScheduleBlock: its name and its
is_reduce_axis flag. -/
structure IterVar where
  name : String
  is_reduce_axis : Bool
deriving DecidableEq

/-- The IR expressions auto_bind.cc inspects. A For node's body stands for
the statements of its ir::Block body; scheduleBlockRealize carries the
iter_values bindings together with the ScheduleBlock's iter_vars and body.
Composite arithmetic in bindings is abstracted by binOp; other covers
every remaining node kind. -/
inductive Expr where
  | varRef (name : String)
  | intImm (value : Int)
  | binOp (lhs rhs : Expr)
  | forNode (ftype : ForType) (loopVar : String) (extent : Int) (body : List Expr)
  | scheduleBlockRealize (iterValues : List Expr) (iterVars : List IterVar) (body : List Expr)
  | other

/-- ir::For::is_binded(): the loop already carries a hardware-dimension
binding. -/
def is_binded (ft : ForType) : Bool :=
  match ft with
  | .GPUBlock => true
  | .GPUThread => true
  | _ => false

/-- ir::For::is_gpu_thread_binded(): the loop is bound to the GPU thread
dimension. -/
def is_gpu_thread_binded (ft : ForType) : Bool :=
  match ft with
  | .GPUThread => true
  | _ => false

mutual

/-- ir::CollectIRNodesWithoutTensor restricted to ScheduleBlockRealize
nodes: every realize in the tree, at any depth, as the pair
(iter_vars of its ScheduleBlock, its iter_values). -/
def collectRealizes : Expr → List (List IterVar × List Expr)
  | .varRef _ => []
  | .intImm _ => []
  | .binOp a b => collectRealizes a ++ collectRealizes b
  | .forNode _ _ _ body => collectRealizesList body
  | .scheduleBlockRealize vals ivs body =>
      (ivs, vals) :: (collectRealizesList vals ++ collectRealizesList body)
  | .other => []

/-- collectRealizes over a statement list (an ir::Block body). -/
def collectRealizesList : List Expr → List (List IterVar × List Expr)
  | [] => []
  | e :: es => collectRealizes e ++ collectRealizesList es

end

mutual

/-- Whether an expression contains a variable node whose name is v;
this embeds the inner CollectIRNodesWithoutTensor of IsSpatialLoop, whose
teller accepts an ir::_Var_ that is same_as the loop var or shares its
name (within one IR, name equality subsumes handle identity). -/
def usesVar (v : String) : Expr → Bool
  | .varRef n => n == v
  | .intImm _ => false
  | .binOp a b => usesVar v a || usesVar v b
  | .forNode _ _ _ body => usesVarList v body
  | .scheduleBlockRealize vals _ body => usesVarList v vals || usesVarList v body
  | .other => false

/-- usesVar over a list of expressions. -/
def usesVarList (v : String) : List Expr → Bool
  | [] => false
  | e :: es => usesVar v e || usesVarList v es

end

/-- One realize is a witness against spatiality of the loop with induction
variable loopVar: some iter var is a reduction axis — flagged
is_reduce_axis or named with the 6-character leading substring "reduce"
(name.substr(0, 6) == "reduce" in the source) — and its binding
expression uses loopVar. The source iterates both lists by a common
index under CHECK_EQ of their sizes; zip expresses the same pairing. -/
def reduceBinding (loopVar : String) (r : List IterVar × List Expr) : Bool :=
  (r.1.zip r.2).any fun p =>
    (p.1.is_reduce_axis || p.1.name.take 6 == "reduce") && usesVar loopVar p.2

/-- IsSpatialLoop from auto_bind.cc on a For node given as its for_type,
loop_var name and body statements: the loop must be Serial and no
schedule-block realize below it may bind a reduction-axis iteration
variable to an expression using the loop variable. -/
def IsSpatialLoop (ftype : ForType) (loopVar : String) (body : List Expr) : Bool :=
  if ftype ≠ ForType.Serial then false
  else !((collectRealizesList body).any (reduceBinding loopVar))

/-- CountLoopCanBinded from auto_bind.cc: walk from the given node
downward; stop on a non-For node (the C++ walks a possibly null For
pointer), on an already bound loop, or on a non-spatial loop; descend
only when the body block holds exactly one statement
(body->stmts.size() == 1, taking stmts[0] as a For, null otherwise). -/
def CountLoopCanBinded : Expr → Nat
  | .forNode ftype loopVar _ body =>
      if is_binded ftype then 0
      else if !IsSpatialLoop ftype loopVar body then 0
      else 1 + (match body with
        | [s] => CountLoopCanBinded s
        | _ => 0)
  | _ => 0

/-! Specification-side formulation for the spatial-loop counting claim:
the chain of loops reachable through single-statement bodies, and the
claim's bindability condition on one loop. -/

/-- The descent chain of the counting walk: the given For node followed by
the chain of its body when that body is a single statement. The chain
follows structure only; conditions are applied by takeWhile below. -/
def nestChain : Expr → List Expr
  | .forNode ftype loopVar extent body =>
      Expr.forNode ftype loopVar extent body ::
        (match body with
         | [s] => nestChain s
         | _ => [])
  | _ => []

/-- The claim's per-loop condition, stated from the claim's words: a plain
serial loop, not already bound to a hardware dimension, whose induction
variable is never used by a reduction-axis iteration variable of any
schedule block below it. -/
def specBindable : Expr → Bool
  | .forNode ftype loopVar _ body =>
      ftype == ForType.Serial && !is_binded ftype &&
        !((collectRealizesList body).any (reduceBinding loopVar))
  | _ => false

/-! ## The loop-chain view and the binding algorithm (BindGPUIndex)

BindGPUIndex manipulates the chain of loops returned by GetLoops through
the primitive operations Fuse / Split / Bind / Reorder. The primitives
themselves are external collaborators (spec section 6); here each loop of
the chain is its extent and for_type, and the primitives act on the chain
positionally, outermost first. -/

/-- One loop of a GetLoops chain: iteration extent and for_type. -/
structure Loop where
  extent : Int
  ftype : ForType
deriving DecidableEq

/-- Trace of the schedule primitives BindGPUIndex invokes, in order. -/
inductive SchedStep where
  | fuse (numLoops : Nat)
  | split (factors : List Int) (numResults : Nat)
  | reorder
  | bind (dim : String)
deriving DecidableEq

/-- Extent of the loop produced by fusing a list of loops: the product of
their extents. -/
def fuseExtent (ls : List Loop) : Int :=
  (ls.map Loop.extent).prod

/-- Modelled from the spec: Fuse(loops) (collaborator primitive, spec
section 6) merges consecutive loops into one serial loop whose extent is
the product of the fused extents (the total iteration extent E of spec
section 4.4 step 2). -/
def fuseLoop (ls : List Loop) : Loop :=
  ⟨fuseExtent ls, ForType.Serial⟩

/-- Ceiling division for positive operands, as an Int expression:
the outer extent of spec section 4.4. -/
def ceilDiv (a b : Int) : Int :=
  (a + b - 1) / b

/-- Product of the explicitly given (non minus-one) factors of a Split
factor list. -/
def prodOfKnownFactors (factors : List Int) : Int :=
  (factors.filter (fun f => !(f == -1))).prod

/-- Modelled from the spec: Split (collaborator primitive, spec section 6)
resolves a -1 factor to the ceiling of the loop extent over the product of
the other factors (spec section 4.4: outer extent is the ceiling of E over
max_threads_num when splitting by factors -1, max_threads_num). -/
def resolveSplitFactors (extent : Int) (factors : List Int) : List Int :=
  factors.map fun f =>
    if f == -1 then ceilDiv extent (prodOfKnownFactors factors) else f

/-- Modelled from the spec: splitting one loop produces one loop per
resolved factor, of that factor's extent, in order. -/
def splitLoop (l : Loop) (factors : List Int) : List Loop :=
  (resolveSplitFactors l.extent factors).map fun f => ⟨f, l.ftype⟩

/-- Which for_type Bind(loop, dim) assigns for the two hardware dimension
names used by BindGPUIndex. -/
def bindDimType (dim : String) : ForType :=
  if dim == "blockIdx.x" then ForType.GPUBlock
  else if dim == "threadIdx.x" then ForType.GPUThread
  else ForType.Serial

/-- Bind applied to the loop at a given position of the chain. -/
def bindAt (pos : Nat) (dim : String) (ls : List Loop) : List Loop :=
  match ls[pos]? with
  | some l => ls.set pos ⟨l.extent, bindDimType dim⟩
  | none => ls

/-- Reorder of the first loops of the chain: the listed positions are the
new outer-to-inner order of the loops they name (so [1, 2, 0] puts the
former middle loop outermost). Loops beyond the listed ones keep their
places. -/
def reorderLoops (ls : List Loop) (order : List Nat) : List Loop :=
  order.map (fun i => ls.getD i ⟨0, ForType.Serial⟩) ++ ls.drop order.length

/-- The gpu_thread_has_binded test of BindGPUIndex: the loop immediately
following the bindable prefix exists and is already bound to the thread
dimension (num_loops_to_bind < all_loops.size() &&
all_loops[num_loops_to_bind].is_gpu_thread_binded()). -/
def gpuThreadNextBinded (all_loops : List Loop) (n : Nat) : Bool :=
  match all_loops[n]? with
  | some l => is_gpu_thread_binded l.ftype
  | none => false

/-- BindGPUIndex from auto_bind.cc on the GetLoops chain of the applied
block. Returns the ordered trace of invoked primitives together with the
resulting loop chain; none models the fatal CHECK_LE failure when
num_loops_to_bind exceeds the chain length. After the three-way split the
source reorders the splits as splits[1], splits[2], splits[0] and then
binds splits[1] (now outermost) and splits[2] (now second); the two
bindAt positions reflect where those loops sit after the reorder. -/
def BindGPUIndex (all_loops : List Loop) (num_loops_to_bind : Nat)
    (max_blocks_num max_threads_num : Int) :
    Option (List SchedStep × List Loop) :=
  if num_loops_to_bind ≤ all_loops.length then
    let gpu_thread_has_binded := gpuThreadNextBinded all_loops num_loops_to_bind
    let fused := fuseLoop (all_loops.take num_loops_to_bind)
    let rest := all_loops.drop num_loops_to_bind
    let extent := fused.extent
    if gpu_thread_has_binded then
      some ([.fuse num_loops_to_bind, .bind "blockIdx.x"],
            bindAt 0 "blockIdx.x" (fused :: rest))
    else if extent ≤ max_threads_num then
      some ([.fuse num_loops_to_bind, .bind "threadIdx.x"],
            bindAt 0 "threadIdx.x" (fused :: rest))
    else if extent ≤ max_blocks_num * max_threads_num then
      let splits := splitLoop fused [-1, max_threads_num]
      some ([.fuse num_loops_to_bind, .split [-1, max_threads_num] splits.length,
             .bind "blockIdx.x", .bind "threadIdx.x"],
            bindAt 1 "threadIdx.x" (bindAt 0 "blockIdx.x" (splits ++ rest)))
    else
      let splits := splitLoop fused [-1, max_blocks_num, max_threads_num]
      let reordered := reorderLoops (splits ++ rest) [1, 2, 0]
      some ([.fuse num_loops_to_bind, .split [-1, max_blocks_num, max_threads_num] splits.length,
             .reorder, .bind "blockIdx.x", .bind "threadIdx.x"],
            bindAt 1 "threadIdx.x" (bindAt 0 "blockIdx.x" reordered))
  else none

/-! ## Schedule Descriptor: steps, attributes, serialization, replay

The ScheduleDesc implementation file is not among the inspected sources;
only its header (cinn/ir/schedule_desc.h) and its tests are. The
definitions of this section are therefore modelled from the
specification, as their doc comments state. -/

/-- An expression handle: only meaningful within one IR instance; replay
resolves handles through the name table, never across instances. -/
abbrev Handle := Nat

/-- The name table of a Descriptor replay: synthetic stable names mapped
to the expression handles produced so far. -/
abbrev NameTable := List (String × Handle)

/-- Modelled from the spec: the Attribute Value closed variant (spec
section 3) over bool, int64, double, string, the sequences of those four,
an expression handle and a sequence of expression handles. The double
payload stands for the value's bit pattern, which serialization carries
verbatim. -/
inductive AttrValue where
  | boolv (b : Bool)
  | intv (i : Int)
  | doublev (bits : Nat)
  | stringv (s : String)
  | boolsv (bs : List Bool)
  | intsv (xs : List Int)
  | doublesv (ds : List Nat)
  | stringsv (ss : List String)
  | exprv (h : Handle)
  | exprsv (hs : List Handle)
deriving DecidableEq

/-- Modelled from the spec: one recorded Step (spec section 2): the
operation-kind name, the mapping from input-slot name to the names of the
referenced prior outputs, the attribute mapping, and the names of the
expression handles the step produced. -/
structure TraceStep where
  type : String
  inputs : List (String × List String)
  attrs : List (String × AttrValue)
  outputs : List String
deriving DecidableEq

/-- Modelled from the spec: the serialized (proto) form of an attribute
value: a oneof-style record with a tag selecting which payload field is
meaningful. -/
structure ProtoAttr where
  tag : Nat
  b : Bool := false
  i : Int := 0
  d : Nat := 0
  s : String := ""
  bl : List Bool := []
  il : List Int := []
  dl : List Nat := []
  sl : List String := []
  e : Handle := 0
  el : List Handle := []
deriving DecidableEq

/-- Modelled from the spec: serialization of one attribute value into its
tagged record. -/
def encodeAttr : AttrValue → ProtoAttr
  | .boolv b => { tag := 0, b := b }
  | .intv i => { tag := 1, i := i }
  | .doublev d => { tag := 2, d := d }
  | .stringv s => { tag := 3, s := s }
  | .boolsv bs => { tag := 4, bl := bs }
  | .intsv xs => { tag := 5, il := xs }
  | .doublesv ds => { tag := 6, dl := ds }
  | .stringsv ss => { tag := 7, sl := ss }
  | .exprv h => { tag := 8, e := h }
  | .exprsv hs => { tag := 9, el := hs }

/-- Modelled from the spec: deserialization of a tagged attribute record;
the tag selects the variant. -/
def decodeAttr (p : ProtoAttr) : AttrValue :=
  if p.tag = 0 then .boolv p.b
  else if p.tag = 1 then .intv p.i
  else if p.tag = 2 then .doublev p.d
  else if p.tag = 3 then .stringv p.s
  else if p.tag = 4 then .boolsv p.bl
  else if p.tag = 5 then .intsv p.il
  else if p.tag = 6 then .doublesv p.dl
  else if p.tag = 7 then .stringsv p.sl
  else if p.tag = 8 then .exprv p.e
  else .exprsv p.el

/-- Modelled from the spec: the serialized form of one Step (spec
section 6): operation-kind string, input-slot mapping over names,
typed attribute mapping, fresh output names. -/
structure ProtoStep where
  type : String
  inputs : List (String × List String)
  attrs : List (String × ProtoAttr)
  outputs : List String
deriving DecidableEq

/-- Modelled from the spec: serialization of one Step. -/
def encodeStep (st : TraceStep) : ProtoStep :=
  ⟨st.type, st.inputs, st.attrs.map (fun a => (a.1, encodeAttr a.2)), st.outputs⟩

/-- Modelled from the spec: deserialization of one Step. -/
def decodeStep (p : ProtoStep) : TraceStep :=
  ⟨p.type, p.inputs, p.attrs.map (fun a => (a.1, decodeAttr a.2)), p.outputs⟩

/-- Modelled from the spec: a ScheduleDesc owns its insertion-ordered
steps and the name table mapping stable names to handles
(schedule_desc.h: steps_ and name2expr_). -/
structure ScheduleDescModel where
  steps : List TraceStep
  name2expr : NameTable
deriving DecidableEq

/-- Modelled from the spec: ScheduleDesc::ToProto serializes the ordered
step list; it does not persist the name table (spec section 4.2). -/
def ScheduleDescToProto (d : ScheduleDescModel) : List ProtoStep :=
  d.steps.map encodeStep

/-- Modelled from the spec: constructing a ScheduleDesc from a serialized
form restores the ordered step list; the name table starts empty and is
rebuilt during replay (spec sections 4.2 and 3). -/
def ScheduleDescOfProto (ps : List ProtoStep) : ScheduleDescModel :=
  ⟨ps.map decodeStep, []⟩

/-- Structural equality of Descriptors in the sense of the serialization
contract (spec section 4.2): the ordered step lists coincide; the name
table is excluded because Export deliberately does not persist it. -/
def DescStructEq (d₁ d₂ : ScheduleDescModel) : Prop :=
  d₁.steps = d₂.steps

/-- Modelled from the spec: a Step-Kind Registry thunk (spec section 4.1):
given a live schedule object, the step's attributes and the resolved
input handles, it performs the primitive operation and returns the new
schedule state with the produced handles, or fails. -/
structure StepThunk (IR : Type) where
  invoke : IR → List (String × AttrValue) → List Handle → Option (IR × List Handle)

/-- Modelled from the spec: the process-wide Step-Kind Registry, read-only
after initialization: operation-kind name to thunk, none for an unknown
kind. -/
def Registry (IR : Type) := String → Option (StepThunk IR)

/-- Resolution of a list of recorded names against the replay name table;
none models the DanglingInputReference failure. -/
def resolveNames (table : NameTable) : List String → Option (List Handle)
  | [] => some []
  | n :: ns =>
    match table.find? (fun p => p.1 == n) with
    | some p => (resolveNames table ns).map (fun hs => p.2 :: hs)
    | none => none

/-- Resolution of every input slot of a step, concatenated in slot order. -/
def resolveInputs (table : NameTable) : List (String × List String) → Option (List Handle)
  | [] => some []
  | s :: ss =>
    match resolveNames table s.2, resolveInputs table ss with
    | some hs, some rest => some (hs ++ rest)
    | _, _ => none

/-- Modelled from the spec: replay of one step (spec section 4.4 Replay):
look the operation kind up in the registry, resolve the recorded input
names against the replay name table, invoke the thunk on the target
schedule, check the produced handle count against the recorded output
count (ReplayDivergence otherwise), and bind the produced handles under
the recorded output names. -/
def replayStep {IR : Type} (reg : Registry IR) (acc : IR × NameTable)
    (st : TraceStep) : Option (IR × NameTable) :=
  match reg st.type with
  | none => none
  | some tk =>
    match resolveInputs acc.2 st.inputs with
    | none => none
    | some ins =>
      match tk.invoke acc.1 st.attrs ins with
      | none => none
      | some (ir, outs) =>
        if outs.length = st.outputs.length then
          some (ir, acc.2 ++ st.outputs.zip outs)
        else none

/-- Replay of a step list from a given schedule state and name table. -/
def ReplaySteps {IR : Type} (reg : Registry IR) :
    List TraceStep → IR × NameTable → Option (IR × NameTable)
  | [], acc => some acc
  | st :: rest, acc =>
    match replayStep reg acc st with
    | some acc₂ => ReplaySteps reg rest acc₂
    | none => none

/-- Modelled from the spec: ScheduleDesc::Replay against a freshly
constructed schedule object: iterate the steps in order against a name
table seeded empty (spec section 4.4). -/
def Replay {IR : Type} (reg : Registry IR) (steps : List TraceStep) (ir : IR) :
    Option (IR × NameTable) :=
  ReplaySteps reg steps (ir, [])

/-! Relations for the replay determinism statement: structural equality of
two IR instances is a relation E on schedule states, and the
correspondence of the distinct handles of the two instances is a relation
HR; both are parameters, constrained only by the collaborator contract
below. -/

/-- Pointwise relation of two lists. -/
def ListRel {α β : Type} (R : α → β → Prop) : List α → List β → Prop
  | [], [] => True
  | a :: as, b :: bs => R a b ∧ ListRel R as bs
  | _, _ => False

/-- Relation of two optional values: both absent, or both present and
related. -/
def OptRel {α β : Type} (R : α → β → Prop) : Option α → Option β → Prop
  | some a, some b => R a b
  | none, none => True
  | _, _ => False

/-- Correspondence of two name-table entries: the same stable name, with
handles related by HR. -/
def EntryRel (HR : Handle → Handle → Prop) (p q : String × Handle) : Prop :=
  p.1 = q.1 ∧ HR p.2 q.2

/-- Correspondence of two replay name tables. -/
def TableRel (HR : Handle → Handle → Prop) (t₁ t₂ : NameTable) : Prop :=
  ListRel (EntryRel HR) t₁ t₂

/-- The collaborator contract of spec section 6: a primitive operation is
deterministic up to structural equality — on structurally equal schedule
states and corresponding input handles it fails on both or succeeds on
both with structurally equal states and corresponding output handles. -/
def ThunkRespects {IR : Type} (E : IR → IR → Prop) (HR : Handle → Handle → Prop)
    (tk : StepThunk IR) : Prop :=
  ∀ a b attrs hs₁ hs₂, E a b → ListRel HR hs₁ hs₂ →
    (tk.invoke a attrs hs₁ = none ∧ tk.invoke b attrs hs₂ = none) ∨
    (∃ a₂ b₂ o₁ o₂, tk.invoke a attrs hs₁ = some (a₂, o₁) ∧
        tk.invoke b attrs hs₂ = some (b₂, o₂) ∧ E a₂ b₂ ∧ ListRel HR o₁ o₂)

/-! ## The AutoBind generation rule -/

/-- RuleApplyType of the generation-rule interface. -/
inductive RuleApplyType where
  | kCannotApply
  | kApply
  | kApplyAndPruneOtherRules
deriving DecidableEq

/-- common::Target as AutoBind consumes it: the rule reads only
max_num_threads(); arch stands for every other field of the target. -/
structure Target where
  arch : String
  max_num_threads : Int
deriving DecidableEq

/-- The fixed compile-time block-count ceiling of auto_bind.cc
(static constexpr uint32_t kMaxThreadBlocks = 256). -/
def kMaxThreadBlocks : Int := 256

/-- The schedule object as AutoBind reads it: for each schedule block, its
name and the GetLoops chain enclosing it, outermost first, each element
given as the For subtree rooted at that depth. -/
structure ScheduleIR where
  blocks : List (String × List Expr)

/-- The chain-view of one GetLoops element: its extent and for_type. -/
def toLoop : Expr → Loop
  | .forNode ftype _ extent _ => ⟨extent, ftype⟩
  | _ => ⟨0, ForType.Serial⟩

/-- The block-collection loop of AutoBind::Init: for every block, take
all_loops[0] — an out-of-bounds access when GetLoops returns an empty
chain, modelled as none — and keep the block when CountLoopCanBinded is
positive on it. -/
def collectApplicableBlocks : List (String × List Expr) → Option (List String)
  | [] => some []
  | (name, loops) :: rest =>
    match loops.head? with
    | none => none
    | some first =>
      match collectApplicableBlocks rest with
      | none => none
      | some tailApp =>
        some (if 0 < CountLoopCanBinded first then name :: tailApp else tailApp)

/-- AutoBind::Init: collect the applicable blocks, cache them, and report
kApplyAndPruneOtherRules when any was found, kCannotApply otherwise.
Returns the reported type together with the cached applicable blocks. -/
def AutoBindInit (sched : ScheduleIR) : Option (RuleApplyType × List String) :=
  match collectApplicableBlocks sched.blocks with
  | none => none
  | some applicable =>
    some (if 0 < applicable.length then RuleApplyType.kApplyAndPruneOtherRules
          else RuleApplyType.kCannotApply, applicable)

/-- IRSchedule::GetBlock by name as AutoBind uses it, paired with
GetLoops on the found block: none models the fatal failure of GetBlock on
a name that names no block. -/
def lookupBlock (sched : ScheduleIR) (name : String) : Option (List Expr) :=
  (sched.blocks.find? (fun p => p.1 == name)).map Prod.snd

/-- AutoBind::AnalyseApplyType: GetBlock, GetLoops, then
CountLoopCanBinded on all_loops[0] (none on an empty chain), reporting
kApplyAndPruneOtherRules on a positive count and kCannotApply otherwise. -/
def AnalyseApplyType (sched : ScheduleIR) (block_name : String) : Option RuleApplyType :=
  match lookupBlock sched block_name with
  | none => none
  | some loops =>
    match loops.head? with
    | none => none
    | some first =>
      some (if 0 < CountLoopCanBinded first then RuleApplyType.kApplyAndPruneOtherRules
            else RuleApplyType.kCannotApply)

/-- AutoBind::Apply at a cached occurrence index: take the cached block,
recount its bindable loops and invoke BindGPUIndex with the fixed
kMaxThreadBlocks block ceiling and the target's max_num_threads()
thread ceiling. none models the CHECK_LT failure on an out-of-range
index and the loop-access failures. -/
def AutoBindApply (t : Target) (sched : ScheduleIR) (cache : List String)
    (index : Nat) : Option (List SchedStep × List Loop) :=
  match cache[index]? with
  | none => none
  | some name =>
    match lookupBlock sched name with
    | none => none
    | some loops =>
      match loops.head? with
      | none => none
      | some first =>
        BindGPUIndex (loops.map toLoop) (CountLoopCanBinded first)
          kMaxThreadBlocks t.max_num_threads

/-- The claim-level characterization of the applicable blocks: those whose
outermost loop has a positive bindable count. -/
def specApplicableBlocks (blocks : List (String × List Expr)) : List String :=
  (blocks.filter fun p => 0 < CountLoopCanBinded (p.2.headD Expr.other)).map Prod.fst

/-- A SearchState: the owned schedule object together with its accumulated
Descriptor steps and name table (spec sections 2 and 3). -/
structure SearchState where
  ir_schedule : ScheduleIR
  desc : List TraceStep
  name2expr : NameTable

/-- The result chain written back into the schedule as For subtrees; the
writeback keeps only the structure AutoBind produced (extents and
bindings). -/
def chainExprs (ls : List Loop) : List Expr :=
  ls.map fun l => Expr.forNode l.ftype "fused" l.extent []

/-- Replacement of one named block's loop chain, leaving every other
block untouched. -/
def updateBlock (sched : ScheduleIR) (name : String) (loops : List Expr) : ScheduleIR :=
  ⟨sched.blocks.map fun p => if p.1 == name then (p.1, loops) else p⟩

/-- AutoBind::ApplyOnBlock: copy the Search State (SearchState::Copy is a
deep clone, spec section 4.3, modelled by value copying), locate the named
block, and apply BindGPUIndex with kMaxThreadBlocks and the target's
max_num_threads() to the copied state's schedule only. The result pairs
the input state as it stands after the call with the returned vector of
new states. -/
def ApplyOnBlock (t : Target) (state : SearchState) (block_name : String) :
    Option (SearchState × List SearchState) :=
  match lookupBlock state.ir_schedule block_name with
  | none => none
  | some loops =>
    match loops.head? with
    | none => none
    | some first =>
      match BindGPUIndex (loops.map toLoop) (CountLoopCanBinded first)
          kMaxThreadBlocks t.max_num_threads with
      | none => none
      | some (_, chain) =>
        some (state,
          [⟨updateBlock state.ir_schedule block_name (chainExprs chain),
            state.desc, state.name2expr⟩])

/-! Concrete fixtures used by the witness theorems. -/

/-- A one-block schedule whose block B sits under a single plain serial
loop of extent 4. -/
def demoSched : ScheduleIR :=
  ⟨[("B", [Expr.forNode ForType.Serial "i" 4 [Expr.other]])]⟩

/-- A Search State owning demoSched with an empty Descriptor. -/
def demoState : SearchState :=
  ⟨demoSched, [], []⟩

/-- A CUDA-like target with 1024 threads per block. -/
def demoTarget : Target :=
  ⟨"cuda", 1024⟩

/-- The state ApplyOnBlock produces from demoState on block B under
demoTarget: the single loop (extent 4, at most 1024) is fused and bound
to threadIdx.x. -/
def demoMutated : SearchState :=
  ⟨⟨[("B", [Expr.forNode ForType.GPUThread "fused" 4 []])]⟩, [], []⟩

/-- A one-operation registry over a Nat-valued demo schedule state: the
add1 kind increments the state and produces one handle derived from the
state and the resolved input count. -/
def demoReg : Registry Nat :=
  fun ty =>
    if ty == "add1" then some ⟨fun ir _ hs => some (ir + 1, [ir + hs.length])⟩ else none

/-- A two-step demo trace: the first step introduces output name a, the
second consumes it through an input slot and introduces b. -/
def demoSteps : List TraceStep :=
  [⟨"add1", [], [], ["a"]⟩, ⟨"add1", [("loop", ["a"])], [], ["b"]⟩]

/-! ## Theorems -/

/-! ### C3: spatial-loop counting -/

lemma specBindable_forNode (ftype : ForType) (v : String) (ext : Int) (body : List Expr) :
    specBindable (.forNode ftype v ext body) = (!is_binded ftype && IsSpatialLoop ftype v body) := by
  cases ftype <;> simp [specBindable, IsSpatialLoop, is_binded]

/-- C3: CountLoopCanBinded returns the length of the maximal consecutive
prefix of the descent chain (walking only through bodies that consist of
a single nested loop) on which every loop is a plain serial loop, is not
already bound to a hardware dimension, and has an induction variable
never used by a reduction-axis iteration variable (flagged is_reduce_axis
or named with leading substring "reduce") of any schedule block below
it; the walk stops at the first loop failing a condition or whose body is
not a single nested loop. -/
theorem countLoopCanBinded_spec : (e : Expr) →
    CountLoopCanBinded e = ((nestChain e).takeWhile specBindable).length
  | .varRef _ => by simp [CountLoopCanBinded, nestChain]
  | .intImm _ => by simp [CountLoopCanBinded, nestChain]
  | .binOp _ _ => by simp [CountLoopCanBinded, nestChain]
  | .other => by simp [CountLoopCanBinded, nestChain]
  | .scheduleBlockRealize _ _ _ => by simp [CountLoopCanBinded, nestChain]
  | .forNode ftype loopVar extent [] => by
      simp only [CountLoopCanBinded, nestChain, List.takeWhile, specBindable_forNode]
      cases hb : is_binded ftype <;> cases hs : IsSpatialLoop ftype loopVar [] <;> simp [hb, hs]
  | .forNode ftype loopVar extent [s] => by
      have ih := countLoopCanBinded_spec s
      simp only [CountLoopCanBinded, nestChain, List.takeWhile, specBindable_forNode]
      cases hb : is_binded ftype <;> cases hs : IsSpatialLoop ftype loopVar [s] <;>
        simp [hb, hs, ih] <;> omega
  | .forNode ftype loopVar extent (a :: b :: rest) => by
      simp only [CountLoopCanBinded, nestChain, List.takeWhile, specBindable_forNode]
      cases hb : is_binded ftype <;> cases hs : IsSpatialLoop ftype loopVar (a :: b :: rest) <;>
        simp [hb, hs]

/-! ### Helper computations for the BindGPUIndex branch theorems -/

lemma bindAt_zero (l : Loop) (rest : List Loop) (dim : String) :
    bindAt 0 dim (l :: rest) = ⟨l.extent, bindDimType dim⟩ :: rest := by
  simp [bindAt]

lemma bindAt_one (l₁ l₂ : Loop) (rest : List Loop) (dim : String) :
    bindAt 1 dim (l₁ :: l₂ :: rest) = l₁ :: ⟨l₂.extent, bindDimType dim⟩ :: rest := by
  simp [bindAt]

lemma splitLoop_two (E T : Int) (hT : ¬ T = -1) :
    splitLoop ⟨E, ForType.Serial⟩ [-1, T] =
      [⟨ceilDiv E T, ForType.Serial⟩, ⟨T, ForType.Serial⟩] := by
  simp [splitLoop, resolveSplitFactors, prodOfKnownFactors, hT]

lemma splitLoop_three (E B T : Int) (hB : ¬ B = -1) (hT : ¬ T = -1) :
    splitLoop ⟨E, ForType.Serial⟩ [-1, B, T] =
      [⟨ceilDiv E (B * T), ForType.Serial⟩, ⟨B, ForType.Serial⟩, ⟨T, ForType.Serial⟩] := by
  simp [splitLoop, resolveSplitFactors, prodOfKnownFactors, hB, hT]

lemma reorderLoops_three (a b c : Loop) (rest : List Loop) :
    reorderLoops (a :: b :: c :: rest) [1, 2, 0] = b :: c :: a :: rest := by
  simp [reorderLoops]

/-- C4: when the loop immediately following the bindable prefix already
carries a GPU thread-dimension binding, BindGPUIndex fuses the prefix into
one loop, binds that fused loop to blockIdx.x, and performs no split, no
reorder and no thread-dimension bind. -/
theorem bindGPUIndex_thread_already_claimed
    (all_loops : List Loop) (n : Nat) (B T : Int) (l : Loop)
    (h0 : 0 < n)
    (hpre : ∀ x ∈ all_loops.take n, x.ftype = ForType.Serial)
    (hnext : all_loops[n]? = some l)
    (hth : is_gpu_thread_binded l.ftype = true) :
    ∃ tr, BindGPUIndex all_loops n B T =
        some (tr, ⟨fuseExtent (all_loops.take n), ForType.GPUBlock⟩ :: all_loops.drop n) ∧
      tr = [SchedStep.fuse n, SchedStep.bind "blockIdx.x"] ∧
      (∀ f k, SchedStep.split f k ∉ tr) ∧ SchedStep.reorder ∉ tr ∧
      SchedStep.bind "threadIdx.x" ∉ tr := by
  have hlt : n < all_loops.length := by
    by_contra hc
    push_neg at hc
    rw [List.getElem?_eq_none hc] at hnext
    cases hnext
  have hg : gpuThreadNextBinded all_loops n = true := by
    simp [gpuThreadNextBinded, hnext, hth]
  refine ⟨[SchedStep.fuse n, SchedStep.bind "blockIdx.x"], ?_, rfl, by simp, by simp, by simp⟩
  simp [BindGPUIndex, le_of_lt hlt, hg, bindAt_zero, fuseLoop, bindDimType]

/-- C4 witness. -/
theorem bindGPUIndex_thread_already_claimed_witness :
    BindGPUIndex [⟨4, ForType.Serial⟩, ⟨8, ForType.GPUThread⟩] 1 2 4 =
      some ([SchedStep.fuse 1, SchedStep.bind "blockIdx.x"],
            [⟨4, ForType.GPUBlock⟩, ⟨8, ForType.GPUThread⟩]) := by
  obtain ⟨tr, h1, h2, -⟩ :=
    bindGPUIndex_thread_already_claimed [⟨4, ForType.Serial⟩, ⟨8, ForType.GPUThread⟩] 1 2 4
      ⟨8, ForType.GPUThread⟩ (by decide) (by decide) (by decide) (by decide)
  rw [h2] at h1
  simpa [fuseExtent] using h1

/-- C5: when no thread binding follows the bindable prefix and the fused
extent E is at most max_threads_num, BindGPUIndex binds the fused loop
directly to threadIdx.x with exactly one bind step and no split. -/
theorem bindGPUIndex_small_extent
    (all_loops : List Loop) (n : Nat) (B T : Int)
    (h0 : 0 < n) (hlen : n ≤ all_loops.length)
    (hpre : ∀ x ∈ all_loops.take n, x.ftype = ForType.Serial)
    (hth : gpuThreadNextBinded all_loops n = false)
    (hsmall : fuseExtent (all_loops.take n) ≤ T) :
    ∃ tr, BindGPUIndex all_loops n B T =
        some (tr, ⟨fuseExtent (all_loops.take n), ForType.GPUThread⟩ :: all_loops.drop n) ∧
      tr = [SchedStep.fuse n, SchedStep.bind "threadIdx.x"] ∧
      (tr.filter fun s => match s with | SchedStep.bind _ => true | _ => false) =
        [SchedStep.bind "threadIdx.x"] ∧
      (∀ f k, SchedStep.split f k ∉ tr) := by
  refine ⟨[SchedStep.fuse n, SchedStep.bind "threadIdx.x"], ?_, rfl, by simp [List.filter], by simp⟩
  simp [BindGPUIndex, hlen, hth, hsmall, bindAt_zero, fuseLoop, bindDimType]

/-- C5 witness, at the boundary E = max_threads_num. -/
theorem bindGPUIndex_small_extent_witness :
    BindGPUIndex [⟨4, ForType.Serial⟩] 1 256 4 =
      some ([SchedStep.fuse 1, SchedStep.bind "threadIdx.x"],
            [⟨4, ForType.GPUThread⟩]) := by
  obtain ⟨tr, h1, h2, -⟩ :=
    bindGPUIndex_small_extent [⟨4, ForType.Serial⟩] 1 256 4
      (by decide) (by decide) (by decide) (by decide) (by decide)
  rw [h2] at h1
  simpa [fuseExtent] using h1

/-- C6: when no thread binding follows the prefix and max_threads_num <
E <= max_blocks_num * max_threads_num, BindGPUIndex splits the fused loop
into exactly two loops of extents (ceil(E / max_threads_num),
max_threads_num), binds the outer split to blockIdx.x and the inner split
to threadIdx.x. -/
theorem bindGPUIndex_two_way_split
    (all_loops : List Loop) (n : Nat) (B T : Int)
    (h0 : 0 < n) (hlen : n ≤ all_loops.length)
    (hpre : ∀ x ∈ all_loops.take n, x.ftype = ForType.Serial)
    (hth : gpuThreadNextBinded all_loops n = false)
    (hT : 0 < T)
    (hlo : T < fuseExtent (all_loops.take n))
    (hhi : fuseExtent (all_loops.take n) ≤ B * T) :
    BindGPUIndex all_loops n B T =
      some ([SchedStep.fuse n, SchedStep.split [-1, T] 2,
             SchedStep.bind "blockIdx.x", SchedStep.bind "threadIdx.x"],
            ⟨ceilDiv (fuseExtent (all_loops.take n)) T, ForType.GPUBlock⟩ ::
             ⟨T, ForType.GPUThread⟩ :: all_loops.drop n) := by
  have hT1 : ¬ T = -1 := by omega
  have hsp := splitLoop_two (fuseExtent (all_loops.take n)) T hT1
  simp [BindGPUIndex, hlen, hth, not_le.mpr hlo, hhi, fuseLoop, hsp,
        bindAt_zero, bindAt_one, bindDimType]

/-- C6 witness, at E = max_threads_num + 1 with max_blocks_num = 2: the
split is (2, max_threads_num). -/
theorem bindGPUIndex_two_way_split_witness :
    BindGPUIndex [⟨5, ForType.Serial⟩] 1 2 4 =
      some ([SchedStep.fuse 1, SchedStep.split [-1, 4] 2,
             SchedStep.bind "blockIdx.x", SchedStep.bind "threadIdx.x"],
            [⟨2, ForType.GPUBlock⟩, ⟨4, ForType.GPUThread⟩]) := by
  have h := bindGPUIndex_two_way_split [⟨5, ForType.Serial⟩] 1 2 4
    (by decide) (by decide) (by decide) (by decide) (by decide)
    (by decide) (by decide)
  simpa [fuseExtent, ceilDiv] using h

/-- C7 counterexample: at a single serial loop of extent 9 with
max_blocks_num = 2 and max_threads_num = 4 (so E = B*T + 1), the loop
chain BindGPUIndex produces starts with the blockIdx.x-bound loop and
ends with the serial remainder: the remainder is moved innermost, so the
two hardware-bound dimensions are outermost relative to the remainder,
not innermost as the claim states. -/
theorem bindGPUIndex_reorder_counterexample :
    BindGPUIndex [⟨9, ForType.Serial⟩] 1 2 4 =
      some ([SchedStep.fuse 1, SchedStep.split [-1, 2, 4] 3, SchedStep.reorder,
             SchedStep.bind "blockIdx.x", SchedStep.bind "threadIdx.x"],
            [⟨2, ForType.GPUBlock⟩, ⟨4, ForType.GPUThread⟩, ⟨2, ForType.Serial⟩]) ∧
    (BindGPUIndex [⟨9, ForType.Serial⟩] 1 2 4).map
        (fun r => r.2.head?.map Loop.ftype) ≠ some (some ForType.Serial) := by
  constructor
  · decide
  · decide

/-- C7 (amended): when no thread binding follows the prefix and E exceeds
max_blocks_num * max_threads_num, BindGPUIndex splits the fused loop into
exactly three loops of extents (ceil(E / (max_blocks_num *
max_threads_num)), max_blocks_num, max_threads_num), reorders so that the
two hardware-bound dimensions become adjacent and outermost with the
outer remainder moved innermost, binds the middle split to blockIdx.x and
the innermost split to threadIdx.x, and the remainder stays an unbound
serial loop. -/
theorem bindGPUIndex_three_way_split
    (all_loops : List Loop) (n : Nat) (B T : Int)
    (h0 : 0 < n) (hlen : n ≤ all_loops.length)
    (hpre : ∀ x ∈ all_loops.take n, x.ftype = ForType.Serial)
    (hth : gpuThreadNextBinded all_loops n = false)
    (hB : 0 < B) (hT : 0 < T)
    (hbig : B * T < fuseExtent (all_loops.take n)) :
    BindGPUIndex all_loops n B T =
      some ([SchedStep.fuse n, SchedStep.split [-1, B, T] 3, SchedStep.reorder,
             SchedStep.bind "blockIdx.x", SchedStep.bind "threadIdx.x"],
            ⟨B, ForType.GPUBlock⟩ :: ⟨T, ForType.GPUThread⟩ ::
             ⟨ceilDiv (fuseExtent (all_loops.take n)) (B * T), ForType.Serial⟩ ::
             all_loops.drop n) := by
  have hB1 : ¬ B = -1 := by omega
  have hT1 : ¬ T = -1 := by omega
  have hE : ¬ fuseExtent (all_loops.take n) ≤ T := by nlinarith
  have hBT : ¬ fuseExtent (all_loops.take n) ≤ B * T := not_le.mpr hbig
  have hsp := splitLoop_three (fuseExtent (all_loops.take n)) B T hB1 hT1
  simp [BindGPUIndex, hlen, hth, hE, hBT, fuseLoop, hsp, reorderLoops_three,
        bindAt_zero, bindAt_one, bindDimType]

/-- C7 witness, at E = max_blocks_num * max_threads_num + 1. -/
theorem bindGPUIndex_three_way_split_witness :
    BindGPUIndex [⟨9, ForType.Serial⟩] 1 2 4 =
      some ([SchedStep.fuse 1, SchedStep.split [-1, 2, 4] 3, SchedStep.reorder,
             SchedStep.bind "blockIdx.x", SchedStep.bind "threadIdx.x"],
            [⟨2, ForType.GPUBlock⟩, ⟨4, ForType.GPUThread⟩, ⟨2, ForType.Serial⟩]) := by
  have h := bindGPUIndex_three_way_split [⟨9, ForType.Serial⟩] 1 2 4
    (by decide) (by decide) (by decide) (by decide) (by decide) (by decide) (by decide)
  simpa [fuseExtent, ceilDiv] using h

/-! ### C8: totality of the applicability queries -/

lemma collectApplicableBlocks_total :
    ∀ blocks : List (String × List Expr), (∀ p ∈ blocks, p.2 ≠ []) →
      collectApplicableBlocks blocks = some (specApplicableBlocks blocks)
  | [], _ => rfl
  | (name, loops) :: rest, h => by
      have hne : loops ≠ [] := h (name, loops) (List.mem_cons_self _ _)
      have ih := collectApplicableBlocks_total rest (fun p hp => h p (List.mem_cons_of_mem _ hp))
      cases loops with
      | nil => exact absurd rfl hne
      | cons x xs =>
        by_cases hc : 0 < CountLoopCanBinded x <;>
          simp [collectApplicableBlocks, ih, specApplicableBlocks, List.filter, hc]

/-- C8 counterexample: on a schedule holding one block whose GetLoops
chain is empty, both Init and AnalyseApplyType fail (the source reads
all_loops[0] without a bounds guard) instead of reporting kCannotApply. -/
theorem autoBind_empty_loops_counterexample :
    AutoBindInit ⟨[("B", [])]⟩ = none ∧ AnalyseApplyType ⟨[("B", [])]⟩ "B" = none :=
  ⟨rfl, rfl⟩

/-- C8 (amended): provided every block's GetLoops chain is non-empty,
Init never fails — it reports kCannotApply exactly when zero applicable
blocks are found — and AnalyseApplyType never fails on a block name that
names an existing block, reporting kCannotApply exactly when the block's
bindable-loop count is zero. -/
theorem autoBind_queries_total (sched : ScheduleIR)
    (hne : ∀ p ∈ sched.blocks, p.2 ≠ []) :
    AutoBindInit sched =
      some (if 0 < (specApplicableBlocks sched.blocks).length
            then RuleApplyType.kApplyAndPruneOtherRules else RuleApplyType.kCannotApply,
            specApplicableBlocks sched.blocks) ∧
    ∀ name loops, lookupBlock sched name = some loops →
      ∃ first, loops.head? = some first ∧
        AnalyseApplyType sched name =
          some (if 0 < CountLoopCanBinded first
                then RuleApplyType.kApplyAndPruneOtherRules else RuleApplyType.kCannotApply) := by
  constructor
  · simp [AutoBindInit, collectApplicableBlocks_total sched.blocks hne]
  · intro name loops hl
    obtain ⟨p, hp, hps⟩ : ∃ p, sched.blocks.find? (fun q => q.1 == name) = some p ∧
        p.2 = loops := by
      cases hf : sched.blocks.find? (fun q => q.1 == name) with
      | none => simp [lookupBlock, hf] at hl
      | some p => exact ⟨p, rfl, by simpa [lookupBlock, hf] using hl⟩
    have hmem := List.mem_of_find?_eq_some hp
    have hlne : loops ≠ [] := hps ▸ hne p hmem
    cases loops with
    | nil => exact absurd rfl hlne
    | cons f fs => exact ⟨f, rfl, by simp [AnalyseApplyType, hl]⟩

/-- C8 witness: on demoSched (its only block under one serial loop of
extent 4) Init succeeds and reports kApplyAndPruneOtherRules with block B
cached. -/
theorem autoBind_queries_total_witness :
    AutoBindInit demoSched = some (RuleApplyType.kApplyAndPruneOtherRules, ["B"]) := by
  have h := (autoBind_queries_total demoSched
    (by intro p hp; rw [demoSched, List.mem_singleton] at hp; subst hp; simp)).1
  simpa [demoSched, specApplicableBlocks, CountLoopCanBinded, IsSpatialLoop, is_binded,
         collectRealizesList, collectRealizes, reduceBinding, List.filter] using h

/-! ### C9: ApplyOnBlock isolation -/

/-- C9: ApplyOnBlock leaves the input Search State — its schedule object,
Descriptor and name table — unchanged, and returns exactly one new Search
State obtained by Copy() of the input, the binding mutations applied only
to the copied state's schedule (its Descriptor and name table are those
of the input state, value-copied). -/
theorem applyOnBlock_isolation (t : Target) (s : SearchState) (name : String)
    (out : SearchState × List SearchState)
    (h : ApplyOnBlock t s name = some out) :
    out.1 = s ∧
    (∃ chain, out.2 =
      [⟨updateBlock s.ir_schedule name (chainExprs chain), s.desc, s.name2expr⟩]) ∧
    ∀ st ∈ out.2, st.desc = s.desc ∧ st.name2expr = s.name2expr := by
  cases hl : lookupBlock s.ir_schedule name with
  | none => simp [ApplyOnBlock, hl] at h
  | some loops =>
    cases hh : loops.head? with
    | none => simp [ApplyOnBlock, hl, hh] at h
    | some first =>
      cases hb : BindGPUIndex (loops.map toLoop) (CountLoopCanBinded first)
          kMaxThreadBlocks t.max_num_threads with
      | none => simp [ApplyOnBlock, hl, hh, hb] at h
      | some pr =>
        simp only [ApplyOnBlock, hl, hh, hb, Option.some.injEq] at h
        subst h
        exact ⟨rfl, ⟨pr.2, rfl⟩, by simp⟩

/-- C9 witness: ApplyOnBlock on demoState succeeds, returning the input
state unchanged together with the single mutated copy. -/
theorem applyOnBlock_isolation_witness :
    ApplyOnBlock demoTarget demoState "B" = some (demoState, [demoMutated]) ∧
    (demoState, [demoMutated]).1 = demoState := by
  have h : ApplyOnBlock demoTarget demoState "B" = some (demoState, [demoMutated]) := by
    simp [ApplyOnBlock, demoTarget, demoState, demoMutated, demoSched, lookupBlock,
          CountLoopCanBinded, IsSpatialLoop, is_binded, collectRealizesList, collectRealizes,
          reduceBinding, BindGPUIndex, gpuThreadNextBinded, fuseLoop, fuseExtent,
          bindAt, bindDimType, toLoop, kMaxThreadBlocks, updateBlock, chainExprs]
  exact ⟨h, (applyOnBlock_isolation demoTarget demoState "B" (demoState, [demoMutated]) h).1⟩

/-! ### C10: the fixed block ceiling and the reported apply types -/

/-- C10: the hardware block-count ceiling used by AutoBind is the fixed
compile-time constant kMaxThreadBlocks = 256 in every invocation of Apply
and ApplyOnBlock — both depend on the target only through its
max_num_threads() — and whenever Init or AnalyseApplyType finds a
positive bindable count the returned apply type is
kApplyAndPruneOtherRules, never plain kApply. -/
theorem autoBind_fixed_block_ceiling :
    kMaxThreadBlocks = 256 ∧
    (∀ t₁ t₂ : Target, t₁.max_num_threads = t₂.max_num_threads →
      ∀ sched cache index, AutoBindApply t₁ sched cache index =
        AutoBindApply t₂ sched cache index) ∧
    (∀ t₁ t₂ : Target, t₁.max_num_threads = t₂.max_num_threads →
      ∀ s name, ApplyOnBlock t₁ s name = ApplyOnBlock t₂ s name) ∧
    (∀ sched r cache, AutoBindInit sched = some (r, cache) →
      r ≠ RuleApplyType.kApply ∧ (cache ≠ [] → r = RuleApplyType.kApplyAndPruneOtherRules)) ∧
    (∀ sched name r, AnalyseApplyType sched name = some r →
      r ≠ RuleApplyType.kApply ∧
      (r ≠ RuleApplyType.kCannotApply → r = RuleApplyType.kApplyAndPruneOtherRules)) := by
  refine ⟨rfl, ?_, ?_, ?_, ?_⟩
  · intro t₁ t₂ h sched cache index
    simp only [AutoBindApply, h]
  · intro t₁ t₂ h s name
    simp only [ApplyOnBlock, h]
  · intro sched r cache h
    cases hc : collectApplicableBlocks sched.blocks with
    | none => simp [AutoBindInit, hc] at h
    | some app =>
      simp only [AutoBindInit, hc, Option.some.injEq, Prod.mk.injEq] at h
      obtain ⟨hr, hcap⟩ := h
      subst hr
      subst hcap
      by_cases hp : 0 < app.length
      · simp [hp]
      · simp only [hp, if_false]
        exact ⟨by simp, fun hne => absurd (List.length_pos.mpr hne) hp⟩
  · intro sched name r h
    cases hl : lookupBlock sched name with
    | none => simp [AnalyseApplyType, hl] at h
    | some loops =>
      cases hh : loops.head? with
      | none => simp [AnalyseApplyType, hl, hh] at h
      | some first =>
        simp only [AnalyseApplyType, hl, hh, Option.some.injEq] at h
        subst h
        by_cases hp : 0 < CountLoopCanBinded first <;> simp [hp]

/-- C10 witness: two targets differing in every field except
max_num_threads produce identical Apply results, and the block ceiling is
the constant 256. -/
theorem autoBind_fixed_block_ceiling_witness :
    AutoBindApply ⟨"cuda", 8⟩ demoSched ["B"] 0 = AutoBindApply ⟨"rocm", 8⟩ demoSched ["B"] 0 ∧
    kMaxThreadBlocks = 256 :=
  ⟨autoBind_fixed_block_ceiling.2.1 ⟨"cuda", 8⟩ ⟨"rocm", 8⟩ rfl demoSched ["B"] 0,
   autoBind_fixed_block_ceiling.1⟩

/-! ### C2: serialization round trip -/

lemma decodeAttr_encodeAttr (a : AttrValue) : decodeAttr (encodeAttr a) = a := by
  cases a <;> rfl

lemma decodeStep_encodeStep (st : TraceStep) : decodeStep (encodeStep st) = st := by
  cases st with
  | mk ty ins ats outs =>
    simp [encodeStep, decodeStep, List.map_map, Function.comp_def, decodeAttr_encodeAttr]

/-- C2: importing the exported serialized form of any Descriptor —
including the empty Descriptor and Descriptors whose attributes use every
Attribute Value variant — yields a Descriptor structurally equal to it,
the step list order preserved exactly. Descriptor structural equality is
step-list equality, since Export deliberately does not persist the name
table (spec section 4.2). -/
theorem scheduleDesc_roundtrip (d : ScheduleDescModel) :
    DescStructEq (ScheduleDescOfProto (ScheduleDescToProto d)) d := by
  simp [DescStructEq, ScheduleDescOfProto, ScheduleDescToProto, List.map_map,
        Function.comp_def, decodeStep_encodeStep]

/-! ### C1: replay determinism -/

lemma optRel_cases {α β : Type} {R : α → β → Prop} :
    ∀ {o₁ : Option α} {o₂ : Option β}, OptRel R o₁ o₂ →
      (o₁ = none ∧ o₂ = none) ∨ ∃ a b, o₁ = some a ∧ o₂ = some b ∧ R a b
  | none, none, _ => Or.inl ⟨rfl, rfl⟩
  | some a, some b, h => Or.inr ⟨a, b, rfl, rfl, h⟩

lemma listRel_length {α β : Type} (R : α → β → Prop) :
    ∀ l₁ l₂, ListRel R l₁ l₂ → l₁.length = l₂.length
  | [], [], _ => rfl
  | _ :: as, _ :: bs, h => by
      simpa using listRel_length R as bs h.2
  | [], _ :: _, h => h.elim
  | _ :: _, [], h => h.elim

lemma listRel_append {α β : Type} (R : α → β → Prop) :
    ∀ l₁ l₂ u₁ u₂, ListRel R l₁ l₂ → ListRel R u₁ u₂ → ListRel R (l₁ ++ u₁) (l₂ ++ u₂)
  | [], [], _, _, _, hu => hu
  | _ :: as, _ :: bs, u₁, u₂, h, hu => ⟨h.1, listRel_append R as bs u₁ u₂ h.2 hu⟩
  | [], _ :: _, _, _, h, _ => h.elim
  | _ :: _, [], _, _, h, _ => h.elim

lemma tableRel_zip (HR : Handle → Handle → Prop) :
    ∀ (ns : List String) (o₁ o₂ : List Handle), ListRel HR o₁ o₂ →
      TableRel HR (ns.zip o₁) (ns.zip o₂)
  | [], _, _, _ => by simp [TableRel, List.zip, ListRel]
  | _ :: _, [], [], _ => by simp [TableRel, List.zip, ListRel]
  | n :: ns, a :: as, b :: bs, h =>
      ⟨⟨rfl, h.1⟩, tableRel_zip HR ns as bs h.2⟩
  | _ :: _, [], _ :: _, h => h.elim
  | _ :: _, _ :: _, [], h => h.elim

lemma optRel_find (HR : Handle → Handle → Prop) (n : String) :
    ∀ t₁ t₂, TableRel HR t₁ t₂ →
      OptRel (EntryRel HR) (t₁.find? fun p => p.1 == n) (t₂.find? fun p => p.1 == n)
  | [], [], _ => by simp [List.find?, OptRel]
  | p :: ps, q :: qs, h => by
      obtain ⟨⟨hn, hh⟩, ht⟩ := h
      by_cases hc : (p.1 == n) = true
      · have hc₂ : (q.1 == n) = true := by rw [← hn]; exact hc
        simp only [List.find?, hc, hc₂, cond_true]
        exact ⟨hn, hh⟩
      · have hc' : (p.1 == n) = false := by simpa using hc
        have hc₂' : (q.1 == n) = false := by rw [← hn]; exact hc'
        simp only [List.find?, hc', hc₂', cond_false]
        exact optRel_find HR n ps qs ht
  | [], _ :: _, h => h.elim
  | _ :: _, [], h => h.elim

lemma resolveNames_rel (HR : Handle → Handle → Prop) (t₁ t₂ : NameTable)
    (hT : TableRel HR t₁ t₂) :
    ∀ ns, OptRel (ListRel HR) (resolveNames t₁ ns) (resolveNames t₂ ns)
  | [] => by simp [resolveNames, OptRel, ListRel]
  | n :: ns => by
      have hf := optRel_find HR n t₁ t₂ hT
      have ih := resolveNames_rel HR t₁ t₂ hT ns
      rcases optRel_cases hf with ⟨e₁, e₂⟩ | ⟨p, q, e₁, e₂, hpq⟩ <;>
        rcases optRel_cases ih with ⟨f₁, f₂⟩ | ⟨l₁, l₂, f₁, f₂, hl⟩ <;>
          simp [resolveNames, e₁, e₂, f₁, f₂, OptRel, ListRel]
      · exact ⟨hpq.2, hl⟩

lemma resolveInputs_rel (HR : Handle → Handle → Prop) (t₁ t₂ : NameTable)
    (hT : TableRel HR t₁ t₂) :
    ∀ ins : List (String × List String),
      OptRel (ListRel HR) (resolveInputs t₁ ins) (resolveInputs t₂ ins)
  | [] => by simp [resolveInputs, OptRel, ListRel]
  | s :: ss => by
      rcases optRel_cases (resolveNames_rel HR t₁ t₂ hT s.2) with ⟨e₁, e₂⟩ | ⟨h₁, h₂, e₁, e₂, hrel⟩ <;>
        rcases optRel_cases (resolveInputs_rel HR t₁ t₂ hT ss) with ⟨f₁, f₂⟩ | ⟨r₁, r₂, f₁, f₂, hrel₂⟩ <;>
          simp [resolveInputs, e₁, e₂, f₁, f₂, OptRel]
      exact listRel_append HR h₁ h₂ r₁ r₂ hrel hrel₂

lemma replayStep_rel {IR : Type} (E : IR → IR → Prop) (HR : Handle → Handle → Prop)
    (reg : Registry IR)
    (hreg : ∀ ty tk, reg ty = some tk → ThunkRespects E HR tk)
    (a₁ a₂ : IR × NameTable) (hE : E a₁.1 a₂.1) (hT : TableRel HR a₁.2 a₂.2)
    (st : TraceStep) :
    OptRel (fun r₁ r₂ => E r₁.1 r₂.1 ∧ TableRel HR r₁.2 r₂.2)
      (replayStep reg a₁ st) (replayStep reg a₂ st) := by
  cases hty : reg st.type with
  | none => simp [replayStep, hty, OptRel]
  | some tk =>
    rcases optRel_cases (resolveInputs_rel HR a₁.2 a₂.2 hT st.inputs) with
      ⟨e₁, e₂⟩ | ⟨i₁, i₂, e₁, e₂, hins⟩
    · simp [replayStep, hty, e₁, e₂, OptRel]
    · rcases hreg st.type tk hty a₁.1 a₂.1 st.attrs i₁ i₂ hE hins with
        ⟨n₁, n₂⟩ | ⟨x₁, x₂, o₁, o₂, s₁, s₂, hx, ho⟩
      · simp [replayStep, hty, e₁, e₂, n₁, n₂, OptRel]
      · have hlen := listRel_length HR o₁ o₂ ho
        by_cases hc : o₁.length = st.outputs.length
        · have hc₂ : o₂.length = st.outputs.length := by rw [← hlen]; exact hc
          simp only [replayStep, hty, e₁, e₂, s₁, s₂, hc, hc₂, if_true, OptRel]
          exact ⟨hx, listRel_append (EntryRel HR) a₁.2 a₂.2 _ _ hT
            (tableRel_zip HR st.outputs o₁ o₂ ho)⟩
        · have hc₂ : ¬ o₂.length = st.outputs.length := by rw [← hlen]; exact hc
          simp [replayStep, hty, e₁, e₂, s₁, s₂, hc, hc₂, OptRel]

lemma replaySteps_rel {IR : Type} (E : IR → IR → Prop) (HR : Handle → Handle → Prop)
    (reg : Registry IR)
    (hreg : ∀ ty tk, reg ty = some tk → ThunkRespects E HR tk) :
    ∀ (steps : List TraceStep) (a₁ a₂ : IR × NameTable),
      E a₁.1 a₂.1 → TableRel HR a₁.2 a₂.2 →
      OptRel (fun r₁ r₂ => E r₁.1 r₂.1 ∧ TableRel HR r₁.2 r₂.2)
        (ReplaySteps reg steps a₁) (ReplaySteps reg steps a₂)
  | [], a₁, a₂, hE, hT => ⟨hE, hT⟩
  | st :: rest, a₁, a₂, hE, hT => by
      rcases optRel_cases (replayStep_rel E HR reg hreg a₁ a₂ hE hT st) with
        ⟨e₁, e₂⟩ | ⟨b₁, b₂, e₁, e₂, hE₂, hT₂⟩
      · simp [ReplaySteps, e₁, e₂, OptRel]
      · simp only [ReplaySteps, e₁, e₂]
        exact replaySteps_rel E HR reg hreg rest b₁ b₂ hE₂ hT₂

/-- C1: replay determinism. For any registry of primitive operations that
are deterministic up to structural equality (the collaborator contract of
spec section 6), any source emission that agrees on structurally equal
IRs, and any recorded step list, replaying against a fresh schedule
object seeded with an IR structurally equal to the original one (distinct
handles, relation HR) either fails on both runs or succeeds on both with
structurally equal resulting IRs and byte-identical emitted source. The
run on the original IR is the direct application of the Descriptor's
steps to it, since Replay invokes exactly the recorded primitives in
order. -/
theorem replay_determinism (IR : Type) (E : IR → IR → Prop) (HR : Handle → Handle → Prop)
    (reg : Registry IR)
    (hreg : ∀ ty tk, reg ty = some tk → ThunkRespects E HR tk)
    (em : IR → String) (hem : ∀ a b, E a b → em a = em b)
    (steps : List TraceStep) (i₁ i₂ : IR) (h : E i₁ i₂) :
    (Replay reg steps i₁ = none ∧ Replay reg steps i₂ = none) ∨
    ∃ j₁ t₁ j₂ t₂, Replay reg steps i₁ = some (j₁, t₁) ∧
      Replay reg steps i₂ = some (j₂, t₂) ∧ E j₁ j₂ ∧ em j₁ = em j₂ := by
  have h₀ := replaySteps_rel E HR reg hreg steps (i₁, []) (i₂, []) h trivial
  rcases optRel_cases h₀ with ⟨e₁, e₂⟩ | ⟨r₁, r₂, e₁, e₂, hE₂, hT₂⟩
  · exact Or.inl ⟨e₁, e₂⟩
  · exact Or.inr ⟨r₁.1, r₁.2, r₂.1, r₂.2, by simpa using e₁, by simpa using e₂,
      hE₂, hem _ _ hE₂⟩

/-- C1 witness: the demo registry's single operation respects structural
equality taken as plain equality of the Nat demo state; replaying the
two-step demo trace from state 7 on both runs succeeds deterministically. -/
theorem replay_determinism_witness :
    (Replay demoReg demoSteps 7 = none ∧ Replay demoReg demoSteps 7 = none) ∨
    ∃ j₁ t₁ j₂ t₂, Replay demoReg demoSteps 7 = some (j₁, t₁) ∧
      Replay demoReg demoSteps 7 = some (j₂, t₂) ∧ j₁ = j₂ ∧ toString j₁ = toString j₂ := by
  refine replay_determinism Nat (fun a b => a = b) (fun a b => a = b) demoReg
    ?_ toString (fun a b hE => by rw [hE]) demoSteps 7 7 rfl
  intro ty tk hty a b attrs hs₁ hs₂ hE hHS
  by_cases hc : (ty == "add1") = true
  · simp only [demoReg, hc, if_true, Option.some.injEq] at hty
    subst hty
    right
    refine ⟨a + 1, b + 1, [a + hs₁.length], [b + hs₂.length], rfl, rfl, by rw [hE], ?_⟩
    exact ⟨by rw [hE, listRel_length (fun a b => a = b) hs₁ hs₂ hHS], trivial⟩
  · simp [demoReg, hc] at hty

end CinnAutoBind
